import Mathlib

/-!
Verification of the UniswapV3 inspector (`src/inspectors/uniswap_v3.rs`).

The file shallowly embeds the inspector's `inspect` pass.  The types it
operates on (`Inspection`, `Classification`, `Transfer`, …), the helper
`find_matching`, and the decode/predicate capabilities (`BaseContract::decode`,
`is_preflight`, `check`, `uniswappy`) live outside the provided source
fragment; those are modelled from the specification and are marked as such.
The body of `inspect` itself is translated line by line from the source.
-/

namespace MevInspect

/-- Modelled from the spec: an asset movement with sender, receiver, token
and amount.  Addresses, tokens and amounts are represented as naturals. -/
structure Transfer where
  sender : Nat
  receiver : Nat
  token : Nat
  amount : Nat
deriving DecidableEq, Repr

/-- Modelled from the spec: the kind of a raw call (the source compares
against `CallType::StaticCall`). -/
inductive CallType where
  | call
  | callCode
  | delegateCall
  | staticCall
deriving DecidableEq, Repr

/-- Modelled from the spec: a raw call record, carrying the raw input bytes
(modelled as a list of naturals) fed to the decoders and the call type. -/
structure Call where
  input : List Nat
  call_type : CallType
deriving DecidableEq, Repr

/-- Modelled from the spec: one node of the call trace as produced by the
tracer, a raw call together with its trace position (path in the call tree).
The source reads `calltrace.as_ref()` for the call and
`calltrace.trace_address` for the position. -/
structure CallTrace where
  call : Call
  trace_address : List Nat
deriving DecidableEq, Repr

/-- Modelled from the spec: a semantic action: Transfer, AddLiquidity
(two tokens, two amounts) or Trade (matched input and output transfers). -/
inductive Action where
  | transfer (t : Transfer)
  | addLiquidity (tokens : List Nat) (amounts : List Nat)
  | trade (t1 : Transfer) (t2 : Transfer)
deriving DecidableEq, Repr

/-- Modelled from the spec: the tagged variant stored at each sequence index:
a classified semantic action carrying its trace position, a raw/unclassified
call record, or a Prune placeholder. -/
inductive Classification where
  | known (action : Action) (trace_address : List Nat)
  | unknown (calltrace : CallTrace)
  | prune
deriving DecidableEq, Repr

/-- Modelled from the spec: `Classification::new(action, trace_address)`
builds a classified (known) action. -/
def Classification.new (a : Action) (trace_address : List Nat) : Classification :=
  Classification.known a trace_address

/-- Modelled from the spec: `as_call` yields the raw call trace of an
unclassified action, and nothing otherwise. -/
def Classification.as_call : Classification → Option CallTrace
  | Classification.unknown c => some c
  | _ => none

/-- Modelled from the spec: `as_action` yields the semantic action of a
classified (known) entry; raw/unclassified entries and Prune yield nothing. -/
def Classification.as_action : Classification → Option Action
  | Classification.known a _ => some a
  | _ => none

/-- Modelled from the spec: the extractor used by the scanners, yielding the
Transfer of an entry classified as a Transfer action and nothing otherwise. -/
def Classification.transfer : Classification → Option Transfer
  | Classification.known (Action.transfer t) _ => some t
  | _ => none

/-- Modelled from the spec: enumerated transaction outcome; the inspector
only ever writes the `checked` value. -/
inductive Status where
  | success
  | reverted
  | checked
deriving DecidableEq, Repr

/-- Modelled from the spec: idempotent insertion into the protocol set,
represented as a duplicate-free list so that the source's `len()` is the
list length. -/
def insertProtocol (ps : List Nat) (p : Nat) : List Nat :=
  if p ∈ ps then ps else ps ++ [p]

/-- Modelled from the spec: the aggregate for one transaction: identifying
hash, registered protocol identifiers, the ordered action sequence, and the
status flag. -/
structure Inspection where
  hash : Nat
  status : Status
  protocols : List Nat
  actions : List Classification
deriving DecidableEq, Repr

/-- Modelled from the spec: the inspector's external capabilities: the two
ABI decoders (`router.decode::<AddLiquidity, _>("addLiquidity", input)` and
`pool.decode::<PairSwap, _>("swap", input)`, both functions of the raw input
bytes), the preflight and guard-check predicates, and the
protocol-identification function `uniswappy`. -/
structure UniswapV3 where
  decode_add_liquidity : List Nat → Option (Nat × Nat × Nat × Nat × Nat × Nat × Nat × Nat)
  decode_swap : List Nat → Option (Nat × Nat × Nat × List Nat)
  is_preflight : Call → Bool
  check : Call → Bool
  uniswappy : Call → Nat

/-- Modelled from the spec: the directional match scanner.  It walks the
given enumerated sequence one element at a time; an element whose extracted
Transfer the filter accepts ends the search with `(index, transfer)`; an
element bearing no Transfer is skipped when `check_all` is true (tolerant
mode) and aborts the search when `check_all` is false (strict mode);
exhausting the sequence yields `none`. -/
def find_matching (actions : List (Nat × Classification))
    (cast : Classification → Option Transfer)
    (check_fn : Transfer → Bool) (check_all : Bool) : Option (Nat × Transfer) :=
  match actions with
  | [] => none
  | (i, a) :: rest =>
    match cast a with
    | some t =>
      if check_fn t then some (i, t)
      else if check_all then find_matching rest cast check_fn check_all else none
    | none =>
      if check_all then find_matching rest cast check_fn check_all else none

/-- Embeds the Rust iterator
`actions.iter().enumerate().rev().skip(actions.len() - i)`: the snapshot
enumerated, reversed, with the entries at positions `i, …, len-1` skipped,
so the scan visits indices `i-1, i-2, …, 0`. -/
def backwardFrom (actions : List Classification) (i : Nat) : List (Nat × Classification) :=
  (actions.enum.reverse).drop (actions.length - i)

/-- Embeds the Rust iterator `actions.iter().enumerate().skip(i + 1)`: the
snapshot enumerated with the first `i + 1` entries skipped, so the scan
visits indices `i+1, …, len-1`. -/
def forwardFrom (actions : List Classification) (i : Nat) : List (Nat × Classification) :=
  actions.enum.drop (i + 1)

/-- State threaded through the `for` loop of `inspect`: the mutated
`Inspection`, the deferred `prune` index list, and the `has_trade` flag. -/
structure LoopState where
  inspection : Inspection
  prune : List Nat
  has_trade : Bool
deriving Repr

/-- Embeds the swap arm of the loop body (source lines 39–92): the protocol
is registered, then a non-empty payload `continue`s, otherwise the backward
tolerant and forward strict scans run over the snapshot and on double
success index `i` becomes a Trade with empty trace address and both matched
indices are recorded for deferred pruning. -/
def inspectSwap (self : UniswapV3) (snapshot : List Classification)
    (st : LoopState) (i : Nat) (call : Call) (bytes : List Nat) : LoopState :=
  let st1 : LoopState :=
    { st with inspection :=
        { st.inspection with
            protocols := insertProtocol st.inspection.protocols (self.uniswappy call) } }
  if !bytes.isEmpty then
    st1
  else
    match find_matching (backwardFrom snapshot i) Classification.transfer (fun _ => true) true with
    | none => st1
    | some (idx_in, transfer_in) =>
      match find_matching (forwardFrom snapshot i) Classification.transfer (fun _ => true) false with
      | none => st1
      | some (idx_out, transfer_out) =>
        { inspection :=
            { st1.inspection with
                actions := st1.inspection.actions.set i
                  (Classification.new (Action.trade transfer_in transfer_out) []) },
          prune := st.prune ++ [idx_in, idx_out],
          has_trade := true }

/-- Embeds the loop body for one raw call (source lines 21–99): first the
addLiquidity decode, else the swap decode, else the static-preflight or
guard-check test that registers the protocol and prunes the entry in place. -/
def inspectCall (self : UniswapV3) (snapshot : List Classification)
    (st : LoopState) (i : Nat) (calltrace : CallTrace) : LoopState :=
  let call := calltrace.call
  match self.decode_add_liquidity call.input with
  | some (token0, token1, amount0, amount1, _, _, _, _) =>
    { st with inspection :=
        { st.inspection with
            actions := st.inspection.actions.set i
              (Classification.new
                (Action.addLiquidity [token0, token1] [amount0, amount1])
                calltrace.trace_address) } }
  | none =>
    match self.decode_swap call.input with
    | some (_, _, _, bytes) => inspectSwap self snapshot st i call bytes
    | none =>
      if (call.call_type == CallType.staticCall && self.is_preflight call) || self.check call then
        { st with inspection :=
            { st.inspection with
                protocols := insertProtocol st.inspection.protocols (self.uniswappy call),
                actions := st.inspection.actions.set i Classification.prune } }
      else st

/-- Embeds one iteration of the loop: only an entry whose `as_call` yields a
raw call trace is processed; anything else is left untouched. -/
def inspectStep (self : UniswapV3) (snapshot : List Classification)
    (st : LoopState) (i : Nat) : LoopState :=
  match (st.inspection.actions.getD i Classification.prune).as_call with
  | none => st
  | some calltrace => inspectCall self snapshot st i calltrace

/-- Embeds the `for i in 0..inspection.actions.len()` loop as a left fold of
`inspectStep` over the index list. -/
def runLoop (self : UniswapV3) (snapshot : List Classification) :
    LoopState → List Nat → LoopState
  | st, [] => st
  | st, i :: rest => runLoop self snapshot (inspectStep self snapshot st i) rest

/-- Runs the full loop of `inspect` from the initial state (empty prune
list, no trade) over the indices `0, …, len-1`, with the snapshot taken at
pass start (`inspection.actions.to_vec()`). -/
def inspectLoop (self : UniswapV3) (inspection : Inspection) : LoopState :=
  runLoop self inspection.actions
    { inspection := inspection, prune := [], has_trade := false }
    (List.range inspection.actions.length)

/-- Embeds the deferred prune application (source lines 102–104): each
recorded index is overwritten with `Classification::Prune`. -/
def applyPrunes (actions : List Classification) (prune : List Nat) : List Classification :=
  prune.foldl (fun acc p => acc.set p Classification.prune) actions

/-- Embeds `UniswapV3::inspect` (source lines 12–120): snapshot and protocol
count taken at pass start, the classification loop, the deferred prunes, and
the early-revert heuristic that sets the status to `checked` when the
protocol set grew, fewer than two actions are classified, and no trade was
formed. -/
def inspect (self : UniswapV3) (inspection : Inspection) : Inspection :=
  let num_protocols := inspection.protocols.length
  let st := inspectLoop self inspection
  let insp1 : Inspection :=
    { st.inspection with actions := applyPrunes st.inspection.actions st.prune }
  if insp1.protocols.length > num_protocols
      ∧ (insp1.actions.filterMap Classification.as_action).length < 2
      ∧ st.has_trade = false then
    { insp1 with status := Status.checked }
  else
    insp1

/-! Scanner lemmas: soundness of `find_matching` and index bounds for the
backward and forward iterator embeddings. -/

theorem find_matching_sound {l : List (Nat × Classification)}
    {cast : Classification → Option Transfer} {check_fn : Transfer → Bool}
    {check_all : Bool} {j : Nat} {t : Transfer}
    (h : find_matching l cast check_fn check_all = some (j, t)) :
    ∃ c, (j, c) ∈ l ∧ cast c = some t ∧ check_fn t = true := by
  induction l with
  | nil => simp [find_matching] at h
  | cons hd rest ih =>
    obtain ⟨i, a⟩ := hd
    rw [find_matching] at h
    split at h
    · rename_i t' hc
      split at h
      · rename_i hf
        obtain ⟨rfl, rfl⟩ : i = j ∧ t' = t := by simpa using h
        exact ⟨a, List.mem_cons_self _ _, hc, hf⟩
      · rename_i hf
        split at h
        · obtain ⟨c, hm, hcast, hchk⟩ := ih h
          exact ⟨c, List.mem_cons_of_mem _ hm, hcast, hchk⟩
        · simp at h
    · rename_i hc
      split at h
      · obtain ⟨c, hm, hcast, hchk⟩ := ih h
        exact ⟨c, List.mem_cons_of_mem _ hm, hcast, hchk⟩
      · simp at h

theorem fst_lt_of_mem_take_enumFrom {α : Type} :
    ∀ (l : List α) (k m j : Nat) (c : α),
      (j, c) ∈ (List.enumFrom k l).take m → j < k + m := by
  intro l
  induction l with
  | nil => intro k m j c h; simp [List.enumFrom] at h
  | cons a l ih =>
    intro k m j c h
    cases m with
    | zero => simp at h
    | succ m =>
      rw [List.enumFrom_cons, List.take_succ_cons] at h
      rcases List.mem_cons.mp h with h1 | h2
      · obtain ⟨rfl, -⟩ := Prod.mk.injEq .. ▸ h1
        omega
      · have := ih (k + 1) m j c h2
        omega

theorem le_fst_of_mem_drop_enumFrom {α : Type} :
    ∀ (l : List α) (k m j : Nat) (c : α),
      (j, c) ∈ (List.enumFrom k l).drop m → k + m ≤ j := by
  intro l
  induction l with
  | nil => intro k m j c h; simp [List.enumFrom] at h
  | cons a l ih =>
    intro k m j c h
    cases m with
    | zero =>
      rw [List.drop_zero] at h
      have := (List.mk_mem_enumFrom_iff_le_and_getElem?_sub.mp h).1
      omega
    | succ m =>
      rw [List.enumFrom_cons, List.drop_succ_cons] at h
      have := ih (k + 1) m j c h
      omega

/-- Dropping the last entries of the reversed enumeration is taking an
initial segment of the enumeration, reversed. -/
theorem enum_reverse_drop {α : Type} (a : List α) (i : Nat) :
    (a.enum.reverse).drop (a.length - i) = (a.enum.take i).reverse := by
  have hsplit : a.enum.reverse = (a.enum.drop i).reverse ++ (a.enum.take i).reverse := by
    conv_lhs => rw [← List.take_append_drop i a.enum, List.reverse_append]
  rw [hsplit]
  exact List.drop_left' (by simp [List.enum_length])

theorem backwardFrom_mem {a : List Classification} {i j : Nat} {c : Classification}
    (h : (j, c) ∈ backwardFrom a i) : a[j]? = some c := by
  have h1 : (j, c) ∈ a.enum := List.mem_reverse.mp (List.mem_of_mem_drop h)
  exact List.mk_mem_enum_iff_getElem?.mp h1

theorem backwardFrom_lt {a : List Classification} {i j : Nat} {c : Classification}
    (_hi : i ≤ a.length) (h : (j, c) ∈ backwardFrom a i) : j < i := by
  rw [backwardFrom, enum_reverse_drop a i] at h
  have h2 : (j, c) ∈ (List.enumFrom 0 a).take i := List.mem_reverse.mp h
  have := fst_lt_of_mem_take_enumFrom a 0 i j c h2
  omega

theorem forwardFrom_mem {a : List Classification} {i j : Nat} {c : Classification}
    (h : (j, c) ∈ forwardFrom a i) : a[j]? = some c := by
  have h1 : (j, c) ∈ a.enum := List.mem_of_mem_drop h
  exact List.mk_mem_enum_iff_getElem?.mp h1

theorem forwardFrom_ge {a : List Classification} {i j : Nat} {c : Classification}
    (h : (j, c) ∈ forwardFrom a i) : i + 1 ≤ j := by
  have h' : (j, c) ∈ (List.enumFrom 0 a).drop (i + 1) := h
  have := le_fst_of_mem_drop_enumFrom a 0 (i + 1) j c h'
  omega

/-! Protocol-set bookkeeping lemmas. -/

theorem insertProtocol_grow (ps : List Nat) (p : Nat) : ps <+: insertProtocol ps p := by
  unfold insertProtocol
  split
  · exact List.prefix_refl _
  · exact List.prefix_append _ _

theorem insertProtocol_mem_of_mem {ps : List Nat} {q : Nat} (p : Nat) (h : q ∈ ps) :
    q ∈ insertProtocol ps p := (insertProtocol_grow ps p).subset h

theorem insertProtocol_self_mem (ps : List Nat) (p : Nat) : p ∈ insertProtocol ps p := by
  unfold insertProtocol
  split
  · assumption
  · exact List.mem_append_right _ (List.mem_singleton.mpr rfl)

/-! Field-preservation lemmas for one loop iteration. -/

theorem inspectStep_status (self : UniswapV3) (snap : List Classification)
    (st : LoopState) (i : Nat) :
    (inspectStep self snap st i).inspection.status = st.inspection.status := by
  simp only [inspectStep, inspectCall, inspectSwap]
  repeat' split
  all_goals rfl

theorem inspectStep_hash (self : UniswapV3) (snap : List Classification)
    (st : LoopState) (i : Nat) :
    (inspectStep self snap st i).inspection.hash = st.inspection.hash := by
  simp only [inspectStep, inspectCall, inspectSwap]
  repeat' split
  all_goals rfl

theorem inspectStep_length (self : UniswapV3) (snap : List Classification)
    (st : LoopState) (i : Nat) :
    (inspectStep self snap st i).inspection.actions.length = st.inspection.actions.length := by
  simp only [inspectStep, inspectCall, inspectSwap]
  repeat' split
  all_goals simp [List.length_set]

theorem inspectStep_get_ne (self : UniswapV3) (snap : List Classification)
    (st : LoopState) {i j : Nat} (hne : i ≠ j) :
    (inspectStep self snap st i).inspection.actions[j]? = st.inspection.actions[j]? := by
  simp only [inspectStep, inspectCall, inspectSwap]
  repeat' split
  all_goals simp [List.getElem?_set_ne hne]

theorem inspectStep_protocols_grow (self : UniswapV3) (snap : List Classification)
    (st : LoopState) (i : Nat) :
    st.inspection.protocols <+: (inspectStep self snap st i).inspection.protocols := by
  simp only [inspectStep, inspectCall, inspectSwap]
  repeat' split
  all_goals first
    | exact List.prefix_refl _
    | exact insertProtocol_grow _ _

theorem inspectStep_has_trade (self : UniswapV3) (snap : List Classification)
    (st : LoopState) (i : Nat) :
    (inspectStep self snap st i).has_trade = st.has_trade ∨
      (inspectStep self snap st i).has_trade = true := by
  simp only [inspectStep, inspectCall, inspectSwap]
  repeat' split
  all_goals first
    | exact Or.inl rfl
    | exact Or.inr rfl

/-- Each iteration either leaves the deferred prune list unchanged or appends
exactly the two indices returned by the backward tolerant and forward strict
scans over the snapshot. -/
theorem inspectStep_prune_spec (self : UniswapV3) (snap : List Classification)
    (st : LoopState) (i : Nat) :
    (inspectStep self snap st i).prune = st.prune ∨
      ∃ a t_in b t_out,
        (inspectStep self snap st i).prune = st.prune ++ [a, b] ∧
        find_matching (backwardFrom snap i) Classification.transfer
          (fun _ => true) true = some (a, t_in) ∧
        find_matching (forwardFrom snap i) Classification.transfer
          (fun _ => true) false = some (b, t_out) := by
  simp only [inspectStep, inspectCall, inspectSwap]
  repeat' split
  all_goals first
    | exact Or.inl rfl
    | exact Or.inr ⟨_, _, _, _, rfl, by assumption, by assumption⟩

/-! Loop-level lemmas, proved by induction over the index list. -/

theorem runLoop_append (self : UniswapV3) (snap : List Classification)
    (st : LoopState) (l₁ l₂ : List Nat) :
    runLoop self snap st (l₁ ++ l₂) = runLoop self snap (runLoop self snap st l₁) l₂ := by
  induction l₁ generalizing st with
  | nil => rfl
  | cons i l₁ ih =>
    simp only [List.cons_append, runLoop]
    exact ih _

theorem runLoop_status (self : UniswapV3) (snap : List Classification)
    (st : LoopState) (l : List Nat) :
    (runLoop self snap st l).inspection.status = st.inspection.status := by
  induction l generalizing st with
  | nil => rfl
  | cons i l ih => rw [runLoop, ih, inspectStep_status]

theorem runLoop_hash (self : UniswapV3) (snap : List Classification)
    (st : LoopState) (l : List Nat) :
    (runLoop self snap st l).inspection.hash = st.inspection.hash := by
  induction l generalizing st with
  | nil => rfl
  | cons i l ih => rw [runLoop, ih, inspectStep_hash]

theorem runLoop_length (self : UniswapV3) (snap : List Classification)
    (st : LoopState) (l : List Nat) :
    (runLoop self snap st l).inspection.actions.length = st.inspection.actions.length := by
  induction l generalizing st with
  | nil => rfl
  | cons i l ih => rw [runLoop, ih, inspectStep_length]

theorem runLoop_get_not_mem (self : UniswapV3) (snap : List Classification)
    (st : LoopState) {l : List Nat} {j : Nat} (hj : j ∉ l) :
    (runLoop self snap st l).inspection.actions[j]? = st.inspection.actions[j]? := by
  induction l generalizing st with
  | nil => rfl
  | cons i l ih =>
    rw [runLoop, ih _ (fun h => hj (List.mem_cons_of_mem _ h)),
      inspectStep_get_ne self snap st (fun h => hj (by rw [← h]; exact List.mem_cons_self _ _))]

theorem runLoop_protocols_grow (self : UniswapV3) (snap : List Classification)
    (st : LoopState) (l : List Nat) :
    st.inspection.protocols <+: (runLoop self snap st l).inspection.protocols := by
  induction l generalizing st with
  | nil => exact List.prefix_refl _
  | cons i l ih =>
    rw [runLoop]
    exact List.IsPrefix.trans (inspectStep_protocols_grow self snap st i) (ih _)

theorem runLoop_has_trade_mono (self : UniswapV3) (snap : List Classification)
    (st : LoopState) (l : List Nat) (h : st.has_trade = true) :
    (runLoop self snap st l).has_trade = true := by
  induction l generalizing st with
  | nil => exact h
  | cons i l ih =>
    rw [runLoop]
    refine ih _ ?_
    rcases inspectStep_has_trade self snap st i with h' | h'
    · rw [h', h]
    · exact h'

/-- Every index recorded for deferred pruning points at a snapshot entry
bearing a Transfer. -/
def PruneOK (snap : List Classification) (pr : List Nat) : Prop :=
  ∀ p ∈ pr, ∃ c t, snap[p]? = some c ∧ Classification.transfer c = some t

theorem inspectStep_pruneOK (self : UniswapV3) (snap : List Classification)
    (st : LoopState) (i : Nat) (h : PruneOK snap st.prune) :
    PruneOK snap (inspectStep self snap st i).prune := by
  rcases inspectStep_prune_spec self snap st i with heq | ⟨a, t_in, b, t_out, heq, hb, hf⟩
  · rw [heq]; exact h
  · rw [heq]
    intro p hp
    rcases List.mem_append.mp hp with hp | hp
    · exact h p hp
    · rcases List.mem_cons.mp hp with rfl | hp
      · obtain ⟨c, hm, hcast, -⟩ := find_matching_sound hb
        exact ⟨c, t_in, backwardFrom_mem hm, hcast⟩
      · rcases List.mem_cons.mp hp with rfl | hp
        · obtain ⟨c, hm, hcast, -⟩ := find_matching_sound hf
          exact ⟨c, t_out, forwardFrom_mem hm, hcast⟩
        · simp at hp

theorem runLoop_pruneOK (self : UniswapV3) (snap : List Classification)
    (st : LoopState) (l : List Nat) (h : PruneOK snap st.prune) :
    PruneOK snap (runLoop self snap st l).prune := by
  induction l generalizing st with
  | nil => exact h
  | cons i l ih => exact ih _ (inspectStep_pruneOK self snap st i h)

theorem inspectLoop_pruneOK (self : UniswapV3) (insp : Inspection) :
    PruneOK insp.actions (inspectLoop self insp).prune :=
  runLoop_pruneOK self insp.actions _ _ (fun p hp => absurd hp (List.not_mem_nil p))

theorem inspectLoop_status (self : UniswapV3) (insp : Inspection) :
    (inspectLoop self insp).inspection.status = insp.status :=
  runLoop_status self insp.actions _ _

theorem inspectLoop_hash (self : UniswapV3) (insp : Inspection) :
    (inspectLoop self insp).inspection.hash = insp.hash :=
  runLoop_hash self insp.actions _ _

theorem inspectLoop_length (self : UniswapV3) (insp : Inspection) :
    (inspectLoop self insp).inspection.actions.length = insp.actions.length :=
  runLoop_length self insp.actions _ _

theorem inspectLoop_protocols_grow (self : UniswapV3) (insp : Inspection) :
    insp.protocols <+: (inspectLoop self insp).inspection.protocols :=
  runLoop_protocols_grow self insp.actions
    { inspection := insp, prune := [], has_trade := false }
    (List.range insp.actions.length)

/-! Deferred-prune application lemmas. -/

theorem applyPrunes_cons (a : List Classification) (p : Nat) (pr : List Nat) :
    applyPrunes a (p :: pr) = applyPrunes (a.set p Classification.prune) pr := rfl

theorem applyPrunes_length (pr : List Nat) (a : List Classification) :
    (applyPrunes a pr).length = a.length := by
  induction pr generalizing a with
  | nil => rfl
  | cons p pr ih =>
    rw [applyPrunes_cons, ih, List.length_set]

theorem applyPrunes_get_not_mem {pr : List Nat} {j : Nat} (a : List Classification)
    (hj : j ∉ pr) :
    (applyPrunes a pr)[j]? = a[j]? := by
  induction pr generalizing a with
  | nil => rfl
  | cons p pr ih =>
    rw [applyPrunes_cons, ih _ (fun h => hj (List.mem_cons_of_mem _ h)),
      List.getElem?_set_ne (fun h => hj (by rw [← h]; exact List.mem_cons_self _ _))]

/-! Decomposition of `inspect` into its loop, prune and heuristic phases. -/

theorem inspect_actions (self : UniswapV3) (insp : Inspection) :
    (inspect self insp).actions =
      applyPrunes (inspectLoop self insp).inspection.actions (inspectLoop self insp).prune := by
  simp only [inspect]
  split
  · rfl
  · rfl

theorem inspect_protocols (self : UniswapV3) (insp : Inspection) :
    (inspect self insp).protocols = (inspectLoop self insp).inspection.protocols := by
  simp only [inspect]
  split
  · rfl
  · rfl

theorem inspect_hash (self : UniswapV3) (insp : Inspection) :
    (inspect self insp).hash = insp.hash := by
  have := inspectLoop_hash self insp
  simp only [inspect]
  split
  · exact this
  · exact this

theorem inspect_status_spec (self : UniswapV3) (insp : Inspection) :
    (inspect self insp).status =
      if (inspectLoop self insp).inspection.protocols.length > insp.protocols.length
          ∧ ((applyPrunes (inspectLoop self insp).inspection.actions
                (inspectLoop self insp).prune).filterMap Classification.as_action).length < 2
          ∧ (inspectLoop self insp).has_trade = false
        then Status.checked else insp.status := by
  have hst := inspectLoop_status self insp
  simp only [inspect]
  split
  · rfl
  · exact hst

/-! Branch characterizations of one loop iteration, under hypotheses naming
the live entry at the processed index and the decode outcomes. -/

theorem getD_of_getElem? {l : List Classification} {i : Nat} {c : Classification}
    (h : l[i]? = some c) : l.getD i Classification.prune = c := by
  rw [List.getD_eq_getElem?_getD, h]
  rfl

theorem inspectStep_no_call (self : UniswapV3) (snap : List Classification)
    (st : LoopState) (i : Nat)
    (h : (st.inspection.actions.getD i Classification.prune).as_call = none) :
    inspectStep self snap st i = st := by
  simp only [inspectStep, h]

theorem inspectStep_addLiq (self : UniswapV3) (snap : List Classification)
    (st : LoopState) (i : Nat) (ct : CallTrace)
    (t0 t1 a0 a1 r0 r1 r2 r3 : Nat)
    (h : st.inspection.actions.getD i Classification.prune = Classification.unknown ct)
    (hd : self.decode_add_liquidity ct.call.input = some (t0, t1, a0, a1, r0, r1, r2, r3)) :
    inspectStep self snap st i =
      { st with inspection :=
          { st.inspection with
              actions := st.inspection.actions.set i
                (Classification.known
                  (Action.addLiquidity [t0, t1] [a0, a1]) ct.trace_address) } } := by
  simp only [inspectStep, h, Classification.as_call, inspectCall, hd, Classification.new]

theorem inspectStep_flash (self : UniswapV3) (snap : List Classification)
    (st : LoopState) (i : Nat) (ct : CallTrace) (b0 b1 b2 : Nat) (bytes : List Nat)
    (h : st.inspection.actions.getD i Classification.prune = Classification.unknown ct)
    (hal : self.decode_add_liquidity ct.call.input = none)
    (hs : self.decode_swap ct.call.input = some (b0, b1, b2, bytes))
    (hne : bytes.isEmpty = false) :
    inspectStep self snap st i =
      { st with inspection :=
          { st.inspection with
              protocols := insertProtocol st.inspection.protocols
                (self.uniswappy ct.call) } } := by
  simp only [inspectStep, h, Classification.as_call, inspectCall, hal, hs, inspectSwap, hne,
    Bool.not_false, if_true]

theorem inspectStep_swap_noback (self : UniswapV3) (snap : List Classification)
    (st : LoopState) (i : Nat) (ct : CallTrace) (b0 b1 b2 : Nat) (bytes : List Nat)
    (h : st.inspection.actions.getD i Classification.prune = Classification.unknown ct)
    (hal : self.decode_add_liquidity ct.call.input = none)
    (hs : self.decode_swap ct.call.input = some (b0, b1, b2, bytes))
    (hemp : bytes.isEmpty = true)
    (hb : find_matching (backwardFrom snap i) Classification.transfer
        (fun _ => true) true = none) :
    inspectStep self snap st i =
      { st with inspection :=
          { st.inspection with
              protocols := insertProtocol st.inspection.protocols
                (self.uniswappy ct.call) } } := by
  simp only [inspectStep, h, Classification.as_call, inspectCall, hal, hs, inspectSwap, hemp,
    Bool.not_true, Bool.false_eq_true, if_false, hb]

theorem inspectStep_swap_nofwd (self : UniswapV3) (snap : List Classification)
    (st : LoopState) (i : Nat) (ct : CallTrace) (b0 b1 b2 : Nat) (bytes : List Nat)
    (a : Nat) (t_in : Transfer)
    (h : st.inspection.actions.getD i Classification.prune = Classification.unknown ct)
    (hal : self.decode_add_liquidity ct.call.input = none)
    (hs : self.decode_swap ct.call.input = some (b0, b1, b2, bytes))
    (hemp : bytes.isEmpty = true)
    (hb : find_matching (backwardFrom snap i) Classification.transfer
        (fun _ => true) true = some (a, t_in))
    (hf : find_matching (forwardFrom snap i) Classification.transfer
        (fun _ => true) false = none) :
    inspectStep self snap st i =
      { st with inspection :=
          { st.inspection with
              protocols := insertProtocol st.inspection.protocols
                (self.uniswappy ct.call) } } := by
  simp only [inspectStep, h, Classification.as_call, inspectCall, hal, hs, inspectSwap, hemp,
    Bool.not_true, Bool.false_eq_true, if_false, hb, hf]

theorem inspectStep_trade (self : UniswapV3) (snap : List Classification)
    (st : LoopState) (i : Nat) (ct : CallTrace) (b0 b1 b2 : Nat) (bytes : List Nat)
    (a b : Nat) (t_in t_out : Transfer)
    (h : st.inspection.actions.getD i Classification.prune = Classification.unknown ct)
    (hal : self.decode_add_liquidity ct.call.input = none)
    (hs : self.decode_swap ct.call.input = some (b0, b1, b2, bytes))
    (hemp : bytes.isEmpty = true)
    (hb : find_matching (backwardFrom snap i) Classification.transfer
        (fun _ => true) true = some (a, t_in))
    (hf : find_matching (forwardFrom snap i) Classification.transfer
        (fun _ => true) false = some (b, t_out)) :
    inspectStep self snap st i =
      { inspection :=
          { st.inspection with
              protocols := insertProtocol st.inspection.protocols (self.uniswappy ct.call),
              actions := st.inspection.actions.set i
                (Classification.known (Action.trade t_in t_out) []) },
        prune := st.prune ++ [a, b],
        has_trade := true } := by
  simp only [inspectStep, h, Classification.as_call, inspectCall, hal, hs, inspectSwap, hemp,
    Bool.not_true, Bool.false_eq_true, if_false, hb, hf, Classification.new]

theorem inspectStep_guard (self : UniswapV3) (snap : List Classification)
    (st : LoopState) (i : Nat) (ct : CallTrace)
    (h : st.inspection.actions.getD i Classification.prune = Classification.unknown ct)
    (hal : self.decode_add_liquidity ct.call.input = none)
    (hs : self.decode_swap ct.call.input = none)
    (hg : ((ct.call.call_type == CallType.staticCall && self.is_preflight ct.call)
        || self.check ct.call) = true) :
    inspectStep self snap st i =
      { st with inspection :=
          { st.inspection with
              protocols := insertProtocol st.inspection.protocols (self.uniswappy ct.call),
              actions := st.inspection.actions.set i Classification.prune } } := by
  simp only [inspectStep, h, Classification.as_call, inspectCall, hal, hs, hg, if_true]

theorem inspectStep_no_match (self : UniswapV3) (snap : List Classification)
    (st : LoopState) (i : Nat) (ct : CallTrace)
    (h : st.inspection.actions.getD i Classification.prune = Classification.unknown ct)
    (hal : self.decode_add_liquidity ct.call.input = none)
    (hs : self.decode_swap ct.call.input = none)
    (hg : ((ct.call.call_type == CallType.staticCall && self.is_preflight ct.call)
        || self.check ct.call) = false) :
    inspectStep self snap st i = st := by
  simp only [inspectStep, h, Classification.as_call, inspectCall, hal, hs, hg, Bool.false_eq_true, if_false]

/-! Splitting the loop at a processed index. -/

/-- State of the loop just before index `i` is processed. -/
def preState (self : UniswapV3) (insp : Inspection) (i : Nat) : LoopState :=
  runLoop self insp.actions { inspection := insp, prune := [], has_trade := false }
    (List.range' 0 i)

theorem preState_get (self : UniswapV3) (insp : Inspection) (i : Nat) :
    (preState self insp i).inspection.actions[i]? = insp.actions[i]? :=
  runLoop_get_not_mem self insp.actions _ (by simp [List.mem_range'_1])

theorem preState_length (self : UniswapV3) (insp : Inspection) (i : Nat) :
    (preState self insp i).inspection.actions.length = insp.actions.length :=
  runLoop_length self insp.actions _ _

theorem inspectLoop_split (self : UniswapV3) (insp : Inspection) (i : Nat)
    (hi : i < insp.actions.length) :
    inspectLoop self insp =
      runLoop self insp.actions
        (inspectStep self insp.actions (preState self insp i) i)
        (List.range' (i + 1) (insp.actions.length - i - 1)) := by
  unfold inspectLoop preState
  rw [List.range_eq_range']
  have h2 := List.range'_append_1 0 i (insp.actions.length - i)
  rw [Nat.zero_add,
    show insp.actions.length - i + i = insp.actions.length from by omega,
    show insp.actions.length - i = (insp.actions.length - i - 1) + 1 from by omega,
    List.range'_succ] at h2
  rw [← h2, runLoop_append]
  rfl

theorem inspectLoop_get_at (self : UniswapV3) (insp : Inspection) (i : Nat)
    (hi : i < insp.actions.length) :
    (inspectLoop self insp).inspection.actions[i]? =
      (inspectStep self insp.actions (preState self insp i) i).inspection.actions[i]? := by
  rw [inspectLoop_split self insp i hi]
  exact runLoop_get_not_mem self insp.actions _
    (by simp only [List.mem_range'_1, not_and]; omega)

/-! End-to-end lemmas: what the final `Inspection` holds at an index whose
snapshot entry is a raw call. -/

/-- An index holding a raw call in the snapshot is never in the deferred
prune list, so the loop's write at that index survives the prune phase. -/
theorem inspect_get_of_call (self : UniswapV3) (insp : Inspection) (i : Nat)
    (ct : CallTrace) (hsnap : insp.actions[i]? = some (Classification.unknown ct)) :
    (inspect self insp).actions[i]? = (inspectLoop self insp).inspection.actions[i]? := by
  have hOK := inspectLoop_pruneOK self insp
  have hnm : i ∉ (inspectLoop self insp).prune := by
    intro hmem
    obtain ⟨c, t, hc, ht⟩ := hOK i hmem
    rw [hsnap] at hc
    obtain rfl : Classification.unknown ct = c := by injection hc
    simp [Classification.transfer] at ht
  rw [inspect_actions, applyPrunes_get_not_mem _ hnm]

theorem inspect_addLiq (self : UniswapV3) (insp : Inspection) (i : Nat)
    (ct : CallTrace) (t0 t1 a0 a1 r0 r1 r2 r3 : Nat)
    (hsnap : insp.actions[i]? = some (Classification.unknown ct))
    (hd : self.decode_add_liquidity ct.call.input = some (t0, t1, a0, a1, r0, r1, r2, r3)) :
    (inspect self insp).actions[i]? =
      some (Classification.known
        (Action.addLiquidity [t0, t1] [a0, a1]) ct.trace_address) := by
  have hi : i < insp.actions.length := by
    rcases List.getElem?_eq_some.mp hsnap with ⟨h, -⟩
    exact h
  have hpre : (preState self insp i).inspection.actions[i]? =
      some (Classification.unknown ct) := by
    rw [preState_get, hsnap]
  have hstep := inspectStep_addLiq self insp.actions (preState self insp i) i ct
    t0 t1 a0 a1 r0 r1 r2 r3 (getD_of_getElem? hpre) hd
  have hlen : i < (preState self insp i).inspection.actions.length := by
    rw [preState_length]
    exact hi
  rw [inspect_get_of_call self insp i ct hsnap, inspectLoop_get_at self insp i hi, hstep]
  exact List.getElem?_set_self hlen

theorem inspect_flash (self : UniswapV3) (insp : Inspection) (i : Nat)
    (ct : CallTrace) (b0 b1 b2 : Nat) (bytes : List Nat)
    (hsnap : insp.actions[i]? = some (Classification.unknown ct))
    (hal : self.decode_add_liquidity ct.call.input = none)
    (hs : self.decode_swap ct.call.input = some (b0, b1, b2, bytes))
    (hne : bytes.isEmpty = false) :
    (inspect self insp).actions[i]? = some (Classification.unknown ct) ∧
      self.uniswappy ct.call ∈ (inspect self insp).protocols := by
  have hi : i < insp.actions.length := by
    rcases List.getElem?_eq_some.mp hsnap with ⟨h, -⟩
    exact h
  have hpre : (preState self insp i).inspection.actions[i]? =
      some (Classification.unknown ct) := by
    rw [preState_get, hsnap]
  have hstep := inspectStep_flash self insp.actions (preState self insp i) i ct
    b0 b1 b2 bytes (getD_of_getElem? hpre) hal hs hne
  refine ⟨?_, ?_⟩
  · rw [inspect_get_of_call self insp i ct hsnap, inspectLoop_get_at self insp i hi, hstep]
    exact hpre
  · rw [inspect_protocols, inspectLoop_split self insp i hi]
    refine (runLoop_protocols_grow self insp.actions _ _).subset ?_
    rw [hstep]
    exact insertProtocol_self_mem _ _

theorem inspect_trade (self : UniswapV3) (insp : Inspection) (i : Nat)
    (ct : CallTrace) (b0 b1 b2 : Nat) (a b : Nat) (t_in t_out : Transfer)
    (hsnap : insp.actions[i]? = some (Classification.unknown ct))
    (hal : self.decode_add_liquidity ct.call.input = none)
    (hs : self.decode_swap ct.call.input = some (b0, b1, b2, []))
    (hb : find_matching (backwardFrom insp.actions i) Classification.transfer
        (fun _ => true) true = some (a, t_in))
    (hf : find_matching (forwardFrom insp.actions i) Classification.transfer
        (fun _ => true) false = some (b, t_out)) :
    (inspect self insp).actions[i]? =
      some (Classification.known (Action.trade t_in t_out) []) := by
  have hi : i < insp.actions.length := by
    rcases List.getElem?_eq_some.mp hsnap with ⟨h, -⟩
    exact h
  have hpre : (preState self insp i).inspection.actions[i]? =
      some (Classification.unknown ct) := by
    rw [preState_get, hsnap]
  have hstep := inspectStep_trade self insp.actions (preState self insp i) i ct
    b0 b1 b2 [] a b t_in t_out (getD_of_getElem? hpre) hal hs rfl hb hf
  have hlen : i < (preState self insp i).inspection.actions.length := by
    rw [preState_length]
    exact hi
  rw [inspect_get_of_call self insp i ct hsnap, inspectLoop_get_at self insp i hi, hstep]
  exact List.getElem?_set_self hlen

/-! Idempotence machinery: a pass over fully classified actions is the
identity. -/

/-- An entry already classified as Trade, Prune or AddLiquidity. -/
def Classification.settled : Classification → Bool
  | Classification.known (Action.trade _ _) _ => true
  | Classification.known (Action.addLiquidity _ _) _ => true
  | Classification.prune => true
  | _ => false

theorem settled_as_call {c : Classification} (h : c.settled = true) :
    c.as_call = none := by
  cases c with
  | known a ta => rfl
  | unknown ct => simp [Classification.settled] at h
  | prune => rfl

theorem inspectStep_settled (self : UniswapV3) (snap : List Classification)
    (st : LoopState) (i : Nat)
    (h : ∀ c ∈ st.inspection.actions, c.settled = true) :
    inspectStep self snap st i = st := by
  apply inspectStep_no_call
  rw [List.getD_eq_getElem?_getD]
  cases hc : st.inspection.actions[i]? with
  | none => rfl
  | some c => exact settled_as_call (h c (List.getElem?_mem hc))

theorem runLoop_settled (self : UniswapV3) (snap : List Classification)
    (st : LoopState) (l : List Nat)
    (h : ∀ c ∈ st.inspection.actions, c.settled = true) :
    runLoop self snap st l = st := by
  induction l with
  | nil => rfl
  | cons i l ih => rw [runLoop, inspectStep_settled self snap st i h, ih]

/-! Concrete data used by the example-based claims and witnesses. -/

/-- Concrete capability instance used in the examples: input `[1]` decodes as
addLiquidity, input `[2]` as a swap with empty payload, input `[3]` as a swap
with non-empty payload `[9]`; input `[4]` is a preflight call; every call
identifies protocol `7`. -/
def exSelf : UniswapV3 where
  decode_add_liquidity := fun input =>
    if input = [1] then some (10, 11, 100, 101, 0, 0, 0, 0) else none
  decode_swap := fun input =>
    if input = [2] then some (0, 0, 0, [])
    else if input = [3] then some (0, 0, 0, [9]) else none
  is_preflight := fun c => c.input == [4]
  check := fun _ => false
  uniswappy := fun _ => 7

/-- Transfer A → pool. -/
def tIn : Transfer := { sender := 1, receiver := 5, token := 20, amount := 30 }

/-- Transfer pool → B. -/
def tOut : Transfer := { sender := 5, receiver := 2, token := 21, amount := 31 }

/-- Raw swap call with empty auxiliary payload, at trace position `[0, 1]`. -/
def swapCall : CallTrace :=
  { call := { input := [2], call_type := CallType.call }, trace_address := [0, 1] }

/-- Raw swap call whose payload decodes non-empty (a flashswap). -/
def flashCall : CallTrace :=
  { call := { input := [3], call_type := CallType.call }, trace_address := [0] }

/-- Raw addLiquidity call at trace position `[2, 0]`. -/
def addLiqCall : CallTrace :=
  { call := { input := [1], call_type := CallType.call }, trace_address := [2, 0] }

/-- A guard entry that bears no Transfer. -/
def guardEntry : Classification :=
  Classification.unknown
    { call := { input := [4], call_type := CallType.staticCall }, trace_address := [1] }

/-- The spec's example sequence Transfer(A→pool), Swap(pool), Transfer(pool→B). -/
def ex1 : Inspection :=
  { hash := 99, status := Status.success, protocols := [],
    actions := [Classification.known (Action.transfer tIn) [0],
                Classification.unknown swapCall,
                Classification.known (Action.transfer tOut) [2]] }

/-- A single flashswap call. -/
def ex2 : Inspection :=
  { hash := 98, status := Status.success, protocols := [],
    actions := [Classification.unknown flashCall] }

/-- A single addLiquidity call. -/
def ex6 : Inspection :=
  { hash := 97, status := Status.success, protocols := [],
    actions := [Classification.unknown addLiqCall] }

/-- A fully classified sequence: Prune, Trade, AddLiquidity. -/
def ex5 : Inspection :=
  { hash := 96, status := Status.reverted, protocols := [3],
    actions := [Classification.prune,
                Classification.known (Action.trade tIn tOut) [],
                Classification.known (Action.addLiquidity [10, 11] [100, 101]) [2, 0]] }

/-- Scanner example sequence Transfer, Guard, Transfer. -/
def ex7a : List Classification :=
  [Classification.known (Action.transfer tIn) [0], guardEntry,
   Classification.known (Action.transfer tOut) [2]]

/-- Scanner example sequence Swap, Guard, Transfer. -/
def ex7b : List Classification :=
  [Classification.unknown swapCall, guardEntry,
   Classification.known (Action.transfer tOut) [2]]

/-! Claim theorems. -/

/-- C1: for the sequence Transfer(A→pool), Swap(pool, empty payload),
Transfer(pool→B), one run of inspect turns index 1 into the Trade pairing
the two transfers with its trace position cleared, turns indices 0 and 2
into Prune, grows the protocol set by exactly one entry, and leaves the
status unchanged. -/
theorem claim_C1 :
    (inspect exSelf ex1).actions =
      [Classification.prune,
       Classification.known (Action.trade tIn tOut) [],
       Classification.prune] ∧
    (inspect exSelf ex1).protocols.length = ex1.protocols.length + 1 ∧
    (inspect exSelf ex1).status = ex1.status := by
  decide

/-- C2 counterexample: a swap whose decode succeeds with the non-empty
payload `[9]` is left unclassified, yet its protocol identifier is
registered into the protocol set — refuting the claim that registration
happens only in the payload-empty case. -/
theorem claim_C2_cex :
    exSelf.decode_swap flashCall.call.input = some (0, 0, 0, [9]) ∧
    ([9] : List Nat) ≠ [] ∧
    ex2.protocols = [] ∧
    (inspect exSelf ex2).protocols = [7] ∧
    (inspect exSelf ex2).actions = [Classification.unknown flashCall] := by
  decide

/-- C2 (amended): for every action whose swap decode succeeds with a
non-empty auxiliary payload, inspect leaves that action unclassified, and
the call's protocol identifier is registered into the protocol set in this
case as well (registration precedes the payload check). -/
theorem claim_C2 : ∀ (self : UniswapV3) (insp : Inspection) (i : Nat) (ct : CallTrace)
    (b0 b1 b2 : Nat) (bytes : List Nat),
    insp.actions[i]? = some (Classification.unknown ct) →
    self.decode_add_liquidity ct.call.input = none →
    self.decode_swap ct.call.input = some (b0, b1, b2, bytes) →
    bytes ≠ [] →
    (inspect self insp).actions[i]? = some (Classification.unknown ct) ∧
      self.uniswappy ct.call ∈ (inspect self insp).protocols := by
  intro self insp i ct b0 b1 b2 bytes hsnap hal hs hne
  refine inspect_flash self insp i ct b0 b1 b2 bytes hsnap hal hs ?_
  cases bytes with
  | nil => exact absurd rfl hne
  | cons x xs => rfl

/-- Witness for C2: the single-flashswap example instantiates the amended
claim. -/
theorem claim_C2_witness :
    (inspect exSelf ex2).actions[0]? = some (Classification.unknown flashCall) ∧
      exSelf.uniswappy flashCall.call ∈ (inspect exSelf ex2).protocols :=
  claim_C2 exSelf ex2 0 flashCall 0 0 0 [9] (by decide) rfl rfl (by decide)

/-- C3: after the loop and deferred pruning, the status is set to Checked
exactly when the protocol set grew strictly, fewer than two actions are
classified (raw and Prune excluded), and no trade was formed; if a trade was
formed the status is unchanged; and the protocol set only ever grows. -/
theorem claim_C3 : ∀ (self : UniswapV3) (insp : Inspection),
    ((inspect self insp).status =
      if (inspectLoop self insp).inspection.protocols.length > insp.protocols.length
          ∧ ((applyPrunes (inspectLoop self insp).inspection.actions
                (inspectLoop self insp).prune).filterMap Classification.as_action).length < 2
          ∧ (inspectLoop self insp).has_trade = false
        then Status.checked else insp.status) ∧
    ((inspectLoop self insp).has_trade = true → (inspect self insp).status = insp.status) ∧
    insp.protocols <+: (inspectLoop self insp).inspection.protocols := by
  intro self insp
  refine ⟨inspect_status_spec self insp, ?_, inspectLoop_protocols_grow self insp⟩
  intro ht
  rw [inspect_status_spec self insp, if_neg]
  rintro ⟨-, -, hf⟩
  rw [ht] at hf
  exact absurd hf (by decide)

/-- Witness for C3: in the trade-forming example the status is unchanged. -/
theorem claim_C3_witness : (inspect exSelf ex1).status = ex1.status :=
  (claim_C3 exSelf ex1).2.1 (by decide)

/-- C4: inspect never changes the length of the action sequence, and every
index populated before the pass is populated after it (and conversely). -/
theorem claim_C4 : ∀ (self : UniswapV3) (insp : Inspection),
    (inspect self insp).actions.length = insp.actions.length ∧
    ∀ (j : Nat), ((inspect self insp).actions[j]?).isSome = (insp.actions[j]?).isSome := by
  intro self insp
  have hlen : (inspect self insp).actions.length = insp.actions.length := by
    rw [inspect_actions, applyPrunes_length, inspectLoop_length]
  refine ⟨hlen, fun j => ?_⟩
  by_cases hj : j < insp.actions.length
  · rw [List.getElem?_eq_getElem (by rw [hlen]; exact hj), List.getElem?_eq_getElem hj]
    rfl
  · have h1 : insp.actions.length ≤ j := by omega
    rw [List.getElem?_eq_none (by rw [hlen]; exact h1), List.getElem?_eq_none h1]

/-- C5: re-running inspect over an Inspection whose every action is already
Trade, Prune or AddLiquidity changes nothing: actions, protocols and status
are all unchanged. -/
theorem claim_C5 : ∀ (self : UniswapV3) (insp : Inspection),
    (∀ c ∈ insp.actions, c.settled = true) → inspect self insp = insp := by
  intro self insp h
  have hloop : inspectLoop self insp =
      { inspection := insp, prune := [], has_trade := false } :=
    runLoop_settled self insp.actions _ _ h
  simp only [inspect, hloop]
  rw [if_neg]
  · rfl
  · rintro ⟨h1, -, -⟩
    exact lt_irrefl _ h1

/-- Witness for C5: a fully classified Prune/Trade/AddLiquidity sequence is
a fixed point of inspect. -/
theorem claim_C5_witness : inspect exSelf ex5 = ex5 :=
  claim_C5 exSelf ex5 (by decide)

/-- C6: every raw call whose liquidity-add decode succeeds is reclassified
as AddLiquidity with the two tokens and two amounts in call-argument order,
preserving the call's trace position. -/
theorem claim_C6 : ∀ (self : UniswapV3) (insp : Inspection) (i : Nat) (ct : CallTrace)
    (t0 t1 a0 a1 r0 r1 r2 r3 : Nat),
    insp.actions[i]? = some (Classification.unknown ct) →
    self.decode_add_liquidity ct.call.input = some (t0, t1, a0, a1, r0, r1, r2, r3) →
    (inspect self insp).actions[i]? =
      some (Classification.known
        (Action.addLiquidity [t0, t1] [a0, a1]) ct.trace_address) ∧
    ([t0, t1] : List Nat).length = 2 ∧ ([a0, a1] : List Nat).length = 2 := by
  intro self insp i ct t0 t1 a0 a1 r0 r1 r2 r3 hsnap hd
  exact ⟨inspect_addLiq self insp i ct t0 t1 a0 a1 r0 r1 r2 r3 hsnap hd, rfl, rfl⟩

/-- Witness for C6: the single addLiquidity-call example. -/
theorem claim_C6_witness :
    (inspect exSelf ex6).actions[0]? =
      some (Classification.known
        (Action.addLiquidity [10, 11] [100, 101]) addLiqCall.trace_address) ∧
    ([10, 11] : List Nat).length = 2 ∧ ([100, 101] : List Nat).length = 2 :=
  claim_C6 exSelf ex6 0 addLiqCall 10 11 100 101 0 0 0 0 (by decide) rfl

/-- C7: the scanner returns the first accepted (index, transfer); it skips a
non-transfer element in tolerant mode, aborts on it in strict mode, and
returns not-found on exhaustion; the backward tolerant scan over
Transfer, Guard, Transfer from index 2 exclusive finds index 0, and the
forward strict scan over Swap, Guard, Transfer from index 1 finds nothing. -/
theorem claim_C7 :
    (∀ (cast : Classification → Option Transfer) (f : Transfer → Bool) (ca : Bool),
        find_matching [] cast f ca = none) ∧
    (∀ (j : Nat) (c : Classification) (rest : List (Nat × Classification))
        (cast : Classification → Option Transfer) (f : Transfer → Bool) (ca : Bool)
        (t : Transfer), cast c = some t → f t = true →
        find_matching ((j, c) :: rest) cast f ca = some (j, t)) ∧
    (∀ (j : Nat) (c : Classification) (rest : List (Nat × Classification))
        (cast : Classification → Option Transfer) (f : Transfer → Bool),
        cast c = none →
        find_matching ((j, c) :: rest) cast f true = find_matching rest cast f true) ∧
    (∀ (j : Nat) (c : Classification) (rest : List (Nat × Classification))
        (cast : Classification → Option Transfer) (f : Transfer → Bool),
        cast c = none →
        find_matching ((j, c) :: rest) cast f false = none) ∧
    find_matching (backwardFrom ex7a 2) Classification.transfer (fun _ => true) true =
      some (0, tIn) ∧
    find_matching (forwardFrom ex7b 0) Classification.transfer (fun _ => true) false =
      none := by
  refine ⟨fun cast f ca => rfl, ?_, ?_, ?_, by decide, by decide⟩
  · intro j c rest cast f ca t hc hf
    simp [find_matching, hc, hf]
  · intro j c rest cast f hc
    simp [find_matching, hc]
  · intro j c rest cast f hc
    simp [find_matching, hc]

/-- Witness for C7: the success equation of the scanner at a concrete
transfer entry. -/
theorem claim_C7_witness :
    find_matching [(5, Classification.known (Action.transfer tIn) [0])]
      Classification.transfer (fun _ => true) true = some (5, tIn) :=
  claim_C7.2.1 5 (Classification.known (Action.transfer tIn) [0]) []
    Classification.transfer (fun _ => true) true tIn rfl rfl

/-- C8: the scans pairing a swap with its transfers read the snapshot taken
at pass start: whenever the snapshot holds an empty-payload swap call at
index i and the two scans over the original sequence succeed, the final
sequence holds exactly the Trade built from those pre-pass scan results,
regardless of any reclassification performed during the pass. -/
theorem claim_C8 : ∀ (self : UniswapV3) (insp : Inspection) (i : Nat) (ct : CallTrace)
    (b0 b1 b2 : Nat) (a b : Nat) (t_in t_out : Transfer),
    insp.actions[i]? = some (Classification.unknown ct) →
    self.decode_add_liquidity ct.call.input = none →
    self.decode_swap ct.call.input = some (b0, b1, b2, []) →
    find_matching (backwardFrom insp.actions i) Classification.transfer
      (fun _ => true) true = some (a, t_in) →
    find_matching (forwardFrom insp.actions i) Classification.transfer
      (fun _ => true) false = some (b, t_out) →
    (inspect self insp).actions[i]? =
      some (Classification.known (Action.trade t_in t_out) []) := by
  intro self insp i ct b0 b1 b2 a b t_in t_out h1 h2 h3 h4 h5
  exact inspect_trade self insp i ct b0 b1 b2 a b t_in t_out h1 h2 h3 h4 h5

/-- Witness for C8: the Transfer, Swap, Transfer example. -/
theorem claim_C8_witness :
    (inspect exSelf ex1).actions[1]? =
      some (Classification.known (Action.trade tIn tOut) []) :=
  claim_C8 exSelf ex1 1 swapCall 0 0 0 0 2 tIn tOut (by decide) rfl rfl
    (by decide) (by decide)

/-- C9: every index recorded for deferred pruning is in bounds for the live
action sequence when the prunes are applied, and an action matching no
decoder and failing the guard test is left untouched while the pass
proceeds. -/
theorem claim_C9 :
    (∀ (self : UniswapV3) (insp : Inspection) (p : Nat),
        p ∈ (inspectLoop self insp).prune →
        p < (inspectLoop self insp).inspection.actions.length) ∧
    (∀ (self : UniswapV3) (snap : List Classification) (st : LoopState) (i : Nat)
        (ct : CallTrace),
        st.inspection.actions.getD i Classification.prune = Classification.unknown ct →
        self.decode_add_liquidity ct.call.input = none →
        self.decode_swap ct.call.input = none →
        ((ct.call.call_type == CallType.staticCall && self.is_preflight ct.call)
            || self.check ct.call) = false →
        inspectStep self snap st i = st) := by
  constructor
  · intro self insp p hp
    obtain ⟨c, t, hc, -⟩ := inspectLoop_pruneOK self insp p hp
    rcases List.getElem?_eq_some.mp hc with ⟨hlt, -⟩
    rw [inspectLoop_length]
    exact hlt
  · intro self snap st i ct h hal hs hg
    exact inspectStep_no_match self snap st i ct h hal hs hg

/-- Witness for C9: index 0 is recorded for pruning in the trade example and
is in bounds. -/
theorem claim_C9_witness : (0 : Nat) < (inspectLoop exSelf ex1).inspection.actions.length :=
  claim_C9.1 exSelf ex1 0 (by decide)

/-- C10: a trade formed at index i records a backward match strictly below i
and a forward match strictly above i (both in bounds of the snapshot), so
the two pruned indices are distinct from i and from each other; and applying
the deferred prunes never overwrites a classification written during the
pass at an index that held a raw call. -/
theorem claim_C10 :
    (∀ (self : UniswapV3) (snap : List Classification) (st : LoopState) (i : Nat),
        i ≤ snap.length →
        (inspectStep self snap st i).prune = st.prune ∨
          ∃ a t_in b t_out,
            (inspectStep self snap st i).prune = st.prune ++ [a, b] ∧
            a < i ∧ i < b ∧ b < snap.length ∧
            find_matching (backwardFrom snap i) Classification.transfer
              (fun _ => true) true = some (a, t_in) ∧
            find_matching (forwardFrom snap i) Classification.transfer
              (fun _ => true) false = some (b, t_out)) ∧
    (∀ (self : UniswapV3) (insp : Inspection) (i : Nat) (ct : CallTrace) (a : Action)
        (ta : List Nat),
        insp.actions[i]? = some (Classification.unknown ct) →
        (inspectLoop self insp).inspection.actions[i]? = some (Classification.known a ta) →
        (inspect self insp).actions[i]? = some (Classification.known a ta)) := by
  constructor
  · intro self snap st i hi
    rcases inspectStep_prune_spec self snap st i with h | ⟨a, t_in, b, t_out, heq, hb, hf⟩
    · exact Or.inl h
    · refine Or.inr ⟨a, t_in, b, t_out, heq, ?_, ?_, ?_, hb, hf⟩
      · obtain ⟨c, hm, -, -⟩ := find_matching_sound hb
        exact backwardFrom_lt hi hm
      · obtain ⟨c, hm, -, -⟩ := find_matching_sound hf
        have := forwardFrom_ge hm
        omega
      · obtain ⟨c, hm, -, -⟩ := find_matching_sound hf
        rcases List.getElem?_eq_some.mp (forwardFrom_mem hm) with ⟨hlt, -⟩
        exact hlt
  · intro self insp i ct a ta hsnap hloop
    rw [inspect_get_of_call self insp i ct hsnap]
    exact hloop

/-- Witness for C10: in the trade example the Trade written at index 1
survives the deferred prunes. -/
theorem claim_C10_witness :
    (inspect exSelf ex1).actions[1]? =
      some (Classification.known (Action.trade tIn tOut) []) :=
  claim_C10.2 exSelf ex1 1 swapCall (Action.trade tIn tOut) [] (by decide) (by decide)

end MevInspect
